import Mathlib

/- Verification development for the flows/distributions module of jax-flows.

   Shallow embedding conventions:
   - a numpy 2-D array (a batch of N samples with D features) is a
     `List (List ℝ)` of its rows; a 1-D array is a `List ℝ`;
   - the external numerical backend (tensorflow-probability densities and
     jax random primitives) is an external collaborator; each of its
     primitives appears either as an explicit function parameter, or as a
     concrete model definition documented as a model of the backend
     contract;
   - the splittable random token type is an arbitrary type `RNG` together
     with a `split : RNG → RNG × RNG` parameter;
   - source code is pure, so every embedded operation is a total Lean
     function. -/

namespace JaxFlows

/-- A batch of samples: N rows, each a list of D real features. -/
abbrev Batch := List (List ℝ)

/-! ### Flow (src/flows/distributions.py, lines 97-112) -/

/-- Translation of `Flow(transformation, prior).init_fun` (src lines
97-112): split the rng, initialize the transformation with the first
descendant and the prior with the second, close over the prior parameters,
and return the transformation parameters together with the composed
`log_pdf` and `sample`.  `split` models the external `jax.random.split`;
`transf` and `prior` are the collaborator init functions. -/
def FlowInit {RNG TP PP : Type} (split : RNG → RNG × RNG)
    (transf : RNG → ℕ → TP × (TP → Batch → Batch × List ℝ) × (TP → Batch → Batch × List ℝ))
    (prior : RNG → ℕ → PP × (PP → Batch → List ℝ) × (RNG → PP → ℕ → Batch))
    (rng : RNG) (input_dim : ℕ) :
    TP × (TP → Batch → List ℝ) × (RNG → TP → ℕ → Batch) :=
  let transformation_rng := (split rng).1
  let prior_rng := (split rng).2
  let t := transf transformation_rng input_dim
  let p := prior prior_rng input_dim
  let log_pdf : TP → Batch → List ℝ := fun params inputs =>
    let u := (t.2.1 params inputs).1
    let log_det := (t.2.1 params inputs).2
    let log_probs := p.2.1 p.1 u
    List.zipWith (fun a b => a + b) log_probs log_det
  let sample : RNG → TP → ℕ → Batch := fun rng params num_samples =>
    (t.2.2 params (p.2.2 rng p.1 num_samples)).1
  (t.1, log_pdf, sample)

/-- C1: a Flow triplet's log_pdf is the elementwise (zipWith) sum of the
prior log-density at the forward image `u` and the forward log-determinant,
where the prior parameters are those obtained at Flow construction; when
both summands are per-sample vectors of length N the result also has
length N. -/
theorem flow_log_pdf_change_of_variables {RNG TP PP : Type}
    (split : RNG → RNG × RNG)
    (transf : RNG → ℕ → TP × (TP → Batch → Batch × List ℝ) × (TP → Batch → Batch × List ℝ))
    (prior : RNG → ℕ → PP × (PP → Batch → List ℝ) × (RNG → PP → ℕ → Batch))
    (rng : RNG) (input_dim : ℕ) (params : TP) (x : Batch) :
    (FlowInit split transf prior rng input_dim).2.1 params x =
      List.zipWith (fun a b => a + b)
        ((prior (split rng).2 input_dim).2.1 (prior (split rng).2 input_dim).1
          ((transf (split rng).1 input_dim).2.1 params x).1)
        ((transf (split rng).1 input_dim).2.1 params x).2 ∧
    (((prior (split rng).2 input_dim).2.1 (prior (split rng).2 input_dim).1
          ((transf (split rng).1 input_dim).2.1 params x).1).length = x.length →
      (((transf (split rng).1 input_dim).2.1 params x).2).length = x.length →
      ((FlowInit split transf prior rng input_dim).2.1 params x).length = x.length) := by
  constructor
  · rfl
  · intro h1 h2
    show (List.zipWith (fun a b => a + b) _ _).length = x.length
    rw [List.length_zipWith, h1, h2, min_self]

/-- C2: a Flow triplet's sample pushes the prior sample (drawn with the
closed-over prior parameters) through the transformation inverse and keeps
only the first component (the log-determinant is discarded); moreover the
sample function depends only on the transformation's inverse map, so two
transformations agreeing on `inverse` (while possibly differing on
`forward`) yield the same sample function. -/
theorem flow_sample_uses_inverse_only {RNG TP PP : Type}
    (split : RNG → RNG × RNG)
    (transf transf2 : RNG → ℕ → TP × (TP → Batch → Batch × List ℝ) × (TP → Batch → Batch × List ℝ))
    (prior : RNG → ℕ → PP × (PP → Batch → List ℝ) × (RNG → PP → ℕ → Batch))
    (rng : RNG) (input_dim : ℕ) :
    (∀ (r : RNG) (params : TP) (num_samples : ℕ),
      (FlowInit split transf prior rng input_dim).2.2 r params num_samples =
        ((transf (split rng).1 input_dim).2.2 params
          ((prior (split rng).2 input_dim).2.2 r (prior (split rng).2 input_dim).1
            num_samples)).1) ∧
    ((transf (split rng).1 input_dim).2.2 = (transf2 (split rng).1 input_dim).2.2 →
      (FlowInit split transf prior rng input_dim).2.2 =
        (FlowInit split transf2 prior rng input_dim).2.2) := by
  constructor
  · intro r params num_samples
    rfl
  · intro hinv
    funext r params num_samples
    show ((transf (split rng).1 input_dim).2.2 params _).1 =
      ((transf2 (split rng).1 input_dim).2.2 params _).1
    rw [hinv]

/-- C2 witness: instantiating the Flow with a concrete identity-style
transformation and a pair differing only in the forward map. -/
theorem flow_sample_uses_inverse_only_witness :
    (∀ (r : ℕ) (params : Unit) (num_samples : ℕ),
      (FlowInit (fun r => (2 * r + 1, 2 * r + 2))
        (fun _ _ => ((), fun _ x => (x, x.map (fun _ => 0)), fun _ x => (x, x.map (fun _ => 0))))
        (fun _ _ => ((), fun _ x => x.map (fun _ => 0), fun _ _ n => List.replicate n [0]))
        0 1).2.2 r params num_samples =
        (((fun (_ : ℕ) (_ : ℕ) => ((), fun (_ : Unit) (x : Batch) => (x, x.map (fun _ => (0:ℝ))), fun (_ : Unit) (x : Batch) => (x, x.map (fun _ => (0:ℝ))))) ((fun r => (2 * r + 1, 2 * r + 2)) 0).1 1).2.2 params
          (((fun (_ : ℕ) (_ : ℕ) => ((), fun (_ : Unit) (x : Batch) => x.map (fun _ => (0:ℝ)), fun (_ : ℕ) (_ : Unit) (n : ℕ) => List.replicate n [(0:ℝ)])) ((fun r => (2 * r + 1, 2 * r + 2)) 0).2 1).2.2 r () num_samples)).1) ∧
    (FlowInit (fun r => (2 * r + 1, 2 * r + 2))
        (fun _ _ => ((), fun _ x => (x, x.map (fun _ => 0)), fun _ x => (x, x.map (fun _ => 0))))
        (fun _ _ => ((), fun _ x => x.map (fun _ => 0), fun _ _ n => List.replicate n [0]))
        0 1).2.2 =
      (FlowInit (fun r => (2 * r + 1, 2 * r + 2))
        (fun _ _ => ((), fun _ x => (x.map (List.map (fun v => v + 1)), x.map (fun _ => 0)), fun _ x => (x, x.map (fun _ => 0))))
        (fun _ _ => ((), fun _ x => x.map (fun _ => 0), fun _ _ n => List.replicate n [0]))
        0 1).2.2 := by
  have h := @flow_sample_uses_inverse_only ℕ Unit Unit
    (fun r => (2 * r + 1, 2 * r + 2))
    (fun _ _ => ((), fun _ x => (x, x.map (fun _ => 0)), fun _ x => (x, x.map (fun _ => 0))))
    (fun _ _ => ((), fun _ x => (x.map (List.map (fun v => v + 1)), x.map (fun _ => 0)), fun _ x => (x, x.map (fun _ => 0))))
    (fun _ _ => ((), fun _ x => x.map (fun _ => 0), fun _ _ n => List.replicate n [0]))
    0 1
  exact ⟨h.1, h.2 rfl⟩

/-- C1 witness: at a concrete identity transformation and constant prior,
both length hypotheses hold for the batch `[[1, 2]]`. -/
theorem flow_log_pdf_change_of_variables_witness :
    (FlowInit (fun r => (2 * r + 1, 2 * r + 2))
      (fun _ _ => ((), fun _ x => (x, x.map (fun _ => 0)), fun _ x => (x, x.map (fun _ => 0))))
      (fun _ _ => ((), fun _ x => x.map (fun _ => 0), fun _ _ n => List.replicate n [0]))
      0 2).2.1 () [[1, 2]] =
      List.zipWith (fun a b => a + b)
        ([[(1:ℝ), 2]].map (fun _ => (0:ℝ))) ([[(1:ℝ), 2]].map (fun _ => (0:ℝ))) ∧
    ((FlowInit (fun r => (2 * r + 1, 2 * r + 2))
      (fun _ _ => ((), fun _ x => (x, x.map (fun _ => 0)), fun _ x => (x, x.map (fun _ => 0))))
      (fun _ _ => ((), fun _ x => x.map (fun _ => 0), fun _ _ n => List.replicate n [0]))
      0 2).2.1 () [[1, 2]]).length = 1 := by
  have h := @flow_log_pdf_change_of_variables ℕ Unit Unit
    (fun r => (2 * r + 1, 2 * r + 2))
    (fun _ _ => ((), fun _ x => (x, x.map (fun _ => 0)), fun _ x => (x, x.map (fun _ => 0))))
    (fun _ _ => ((), fun _ x => x.map (fun _ => 0), fun _ _ n => List.replicate n [0]))
    0 2 () [[1, 2]]
  exact ⟨h.1, h.2 rfl rfl⟩

/-- C3: Flow construction splits the rng into exactly two descendants,
seeds the transformation with the first and the prior with the second,
exposes exactly the transformation's parameters as the triplet's
parameters, and closes over the prior parameters inside `log_pdf` and
`sample`. -/
theorem flow_init_rng_and_params {RNG TP PP : Type}
    (split : RNG → RNG × RNG)
    (transf : RNG → ℕ → TP × (TP → Batch → Batch × List ℝ) × (TP → Batch → Batch × List ℝ))
    (prior : RNG → ℕ → PP × (PP → Batch → List ℝ) × (RNG → PP → ℕ → Batch))
    (rng : RNG) (input_dim : ℕ) :
    (FlowInit split transf prior rng input_dim).1 =
      (transf (split rng).1 input_dim).1 ∧
    (∀ (params : TP) (x : Batch),
      (FlowInit split transf prior rng input_dim).2.1 params x =
        List.zipWith (fun a b => a + b)
          ((prior (split rng).2 input_dim).2.1 (prior (split rng).2 input_dim).1
            ((transf (split rng).1 input_dim).2.1 params x).1)
          ((transf (split rng).1 input_dim).2.1 params x).2) ∧
    (∀ (r : RNG) (params : TP) (num_samples : ℕ),
      (FlowInit split transf prior rng input_dim).2.2 r params num_samples =
        ((transf (split rng).1 input_dim).2.2 params
          ((prior (split rng).2 input_dim).2.2 r (prior (split rng).2 input_dim).1
            num_samples)).1) :=
  ⟨rfl, fun _ _ => rfl, fun _ _ _ => rfl⟩

/-! ### Normal and GenNormal (src lines 13-49) -/

/-- Model of the external tfp sampling primitive
`dist.sample((num_samples, input_dim), rng)` (external collaborator, spec
section 6): an array of shape (num_samples, input_dim) whose entries are
determined by the rng token and the position through the backend draw
function `draw`, which closes over the distribution constants (loc, scale,
power) exactly as the backend distribution object does. -/
def tfdSampleModel {RNG : Type} (draw : RNG → ℕ → ℕ → ℝ)
    (num_samples input_dim : ℕ) (rng : RNG) : Batch :=
  (List.range num_samples).map (fun i =>
    (List.range input_dim).map (fun j => draw rng i j))

/-- Translation of `Normal(loc, scale).init_fun` (src lines 13-28): the
parameters are the empty tuple, `log_pdf` is the elementwise log-density
of the closed-over tfp Normal followed by a sum over axis 1, and `sample`
draws a (num_samples, input_dim) array from the backend.  `nlp loc scale`
models the external elementwise `dist.log_prob` of `tfd.Normal(loc,
scale)`; `draw` models its sampler. -/
def NormalInit {RNG : Type} (nlp : ℝ → ℝ → ℝ → ℝ) (draw : RNG → ℕ → ℕ → ℝ)
    (loc scale : ℝ) (rng : RNG) (input_dim : ℕ) :
    Unit × (Unit → Batch → List ℝ) × (RNG → Unit → ℕ → Batch) :=
  let log_pdf : Unit → Batch → List ℝ := fun _params inputs =>
    (inputs.map (fun row => row.map (nlp loc scale))).map (fun row => row.sum)
  let sample : RNG → Unit → ℕ → Batch := fun rng _params num_samples =>
    tfdSampleModel draw num_samples input_dim rng
  ((), log_pdf, sample)

/-- Translation of `GenNormal(loc, scale, power).init_fun` (src lines
32-49), identical in structure to `NormalInit` with the closed-over tfp
GeneralizedNormal; `gnlp loc scale power` models its elementwise
`log_prob` and `draw` its sampler. -/
def GenNormalInit {RNG : Type} (gnlp : ℝ → ℝ → ℝ → ℝ → ℝ)
    (draw : RNG → ℕ → ℕ → ℝ) (loc scale power : ℝ) (rng : RNG)
    (input_dim : ℕ) :
    Unit × (Unit → Batch → List ℝ) × (RNG → Unit → ℕ → Batch) :=
  let log_pdf : Unit → Batch → List ℝ := fun _params inputs =>
    (inputs.map (fun row => row.map (gnlp loc scale power))).map (fun row => row.sum)
  let sample : RNG → Unit → ℕ → Batch := fun rng _params num_samples =>
    tfdSampleModel draw num_samples input_dim rng
  ((), log_pdf, sample)

/-- C7: Normal and GenNormal return the empty parameter tuple; for every
params value and batch, log_pdf is the per-row sum (across the feature
axis) of the closed-over elementwise log-densities, a vector with one
entry per batch row; loc, scale and power enter only through the
closed-over density, never through params. -/
theorem normal_gennormal_unit_params_row_sums {RNG : Type}
    (nlp : ℝ → ℝ → ℝ → ℝ) (gnlp : ℝ → ℝ → ℝ → ℝ → ℝ)
    (draw : RNG → ℕ → ℕ → ℝ) (loc scale power : ℝ) (rng : RNG)
    (input_dim : ℕ) (ps : Unit) (inputs : Batch) :
    (NormalInit nlp draw loc scale rng input_dim).1 = () ∧
    (NormalInit nlp draw loc scale rng input_dim).2.1 ps inputs =
      inputs.map (fun row => (row.map (nlp loc scale)).sum) ∧
    ((NormalInit nlp draw loc scale rng input_dim).2.1 ps inputs).length =
      inputs.length ∧
    (GenNormalInit gnlp draw loc scale power rng input_dim).1 = () ∧
    (GenNormalInit gnlp draw loc scale power rng input_dim).2.1 ps inputs =
      inputs.map (fun row => (row.map (gnlp loc scale power)).sum) ∧
    ((GenNormalInit gnlp draw loc scale power rng input_dim).2.1 ps inputs).length =
      inputs.length := by
  refine ⟨rfl, ?_, by simp [NormalInit], rfl, ?_, by simp [GenNormalInit]⟩
  · show (inputs.map (fun row => row.map (nlp loc scale))).map (fun row => row.sum) = _
    rw [List.map_map]
    rfl
  · show (inputs.map (fun row => row.map (gnlp loc scale power))).map (fun row => row.sum) = _
    rw [List.map_map]
    rfl

/-- C9 counterexample: a Normal triplet initialized at input_dim = 3,
applied to a batch whose single row has only 2 features, returns an
ordinary value (the sum over the 2 actual features) instead of surfacing
a shape error: the log_pdf body never consults input_dim and the
elementwise backend density broadcasts over any shape. -/
theorem normal_logpdf_no_shape_error_counterexample :
    (NormalInit (fun _ _ x => x) (fun _ _ _ => 0) 0 1 (0 : ℕ) 3).2.1 () [[1, 2]] = [3] := by
  norm_num [NormalInit]

/-- C9 amended: Normal and GenNormal log_pdf perform no dimension check;
the log-density closure is independent of input_dim, and on a batch of any
feature width it returns one value per row, computed across the actual
feature axis of that row. -/
theorem normal_logpdf_no_dim_check {RNG : Type}
    (nlp : ℝ → ℝ → ℝ → ℝ) (gnlp : ℝ → ℝ → ℝ → ℝ → ℝ)
    (draw : RNG → ℕ → ℕ → ℝ) (loc scale power : ℝ) (rng : RNG)
    (d1 d2 : ℕ) (ps : Unit) (inputs : Batch) :
    (NormalInit nlp draw loc scale rng d1).2.1 =
      (NormalInit nlp draw loc scale rng d2).2.1 ∧
    (GenNormalInit gnlp draw loc scale power rng d1).2.1 =
      (GenNormalInit gnlp draw loc scale power rng d2).2.1 ∧
    (NormalInit nlp draw loc scale rng d1).2.1 ps inputs =
      inputs.map (fun row => (row.map (nlp loc scale)).sum) ∧
    ((NormalInit nlp draw loc scale rng d1).2.1 ps inputs).length =
      inputs.length := by
  refine ⟨rfl, rfl, ?_, by simp [NormalInit]⟩
  show (inputs.map (fun row => row.map (nlp loc scale))).map (fun row => row.sum) = _
  rw [List.map_map]
  rfl

/-! ### GMM log-density (src lines 52-58) -/

/-- Pointwise zip of three lists under a ternary function; models the
Python `zip` of three sequences driving the GMM component loop. -/
def zip3Map {α β γ δ : Type} (f : α → β → γ → δ) :
    List α → List β → List γ → List δ
  | a :: as, b :: bs, c :: cs => f a b c :: zip3Map f as bs cs
  | _, _, _ => []

/-- Columns of a stacked K-by-N array: column j collects entry j of every
row.  This is the axis-0 view of `np.vstack(cluster_lls)`; faithful for
the rectangular stacks numpy accepts. -/
def vstackCols (rows : List (List ℝ)) : List (List ℝ) :=
  match rows with
  | [] => []
  | r0 :: rest =>
    (List.range r0.length).map (fun j => (r0 :: rest).map (fun r => r.getD j 0))

/-- Model of the external `jax.scipy.special.logsumexp` on one vector
(external collaborator, spec section 6): the max-shifted numerically
stable form `m + log (sum (exp (x - m)))` with `m` the maximum of the
entries. -/
noncomputable def logsumexpStable (l : List ℝ) : ℝ :=
  match l with
  | [] => 0
  | x :: xs =>
    let m := xs.foldl max x
    m + Real.log (((x :: xs).map (fun a => Real.exp (a - m))).sum)

/-- Model of `logsumexp(stack, axis=0)` on a stacked K-by-N array: one
stable log-sum-exp per column. -/
noncomputable def logsumexpAxis0 (rows : List (List ℝ)) : List ℝ :=
  (vstackCols rows).map logsumexpStable

/-- Translation of `GMM(means, covariances, weights).init_fun.log_pdf`
(src lines 54-58): for each component, the log weight plus the
multivariate normal log-density of the batch; the component vectors are
stacked and reduced by logsumexp over axis 0.  `mvnLogpdf` models the
external `jax.scipy.stats.multivariate_normal.logpdf`, mapping (batch,
mean, cov) to one log-density per batch row. -/
noncomputable def gmmLogPdf (mvnLogpdf : Batch → List ℝ → List (List ℝ) → List ℝ)
    (means : List (List ℝ)) (covariances : List (List (List ℝ)))
    (weights : List ℝ) (_params : Unit) (inputs : Batch) : List ℝ :=
  let cluster_lls :=
    zip3Map (fun log_weight mean cov =>
        (mvnLogpdf inputs mean cov).map (fun v => log_weight + v))
      (weights.map Real.log) means covariances
  logsumexpAxis0 cluster_lls

/-- Maps under pointwise equal functions agree. -/
theorem map_eq_of_eq_on {α β : Type} (f g : α → β) :
    ∀ (l : List α), (∀ a ∈ l, f a = g a) → l.map f = l.map g := by
  intro l
  induction l with
  | nil => intro _; rfl
  | cons a as ih =>
    intro h
    simp only [List.map_cons]
    rw [h a (by simp), ih (fun b hb => h b (by simp [hb]))]

/-- Summing `exp a * c` over a list factors out the constant. -/
theorem sum_map_exp_mul_const (c : ℝ) :
    ∀ (l : List ℝ), (l.map (fun a => Real.exp a * c)).sum = (l.map Real.exp).sum * c := by
  intro l
  induction l with
  | nil => simp
  | cons x xs ih =>
    simp only [List.map_cons, List.sum_cons, ih]
    ring

/-- The max-shifted stable log-sum-exp agrees with the mathematical
`log (sum (exp))` on every nonempty vector. -/
theorem logsumexpStable_eq_log_sum_exp (l : List ℝ) (h : l ≠ []) :
    logsumexpStable l = Real.log ((l.map Real.exp).sum) := by
  cases l with
  | nil => exact absurd rfl h
  | cons x xs =>
    show (xs.foldl max x) +
        Real.log (((x :: xs).map (fun a => Real.exp (a - (xs.foldl max x)))).sum) = _
    set m := xs.foldl max x with hm
    have hfun : (fun a => Real.exp (a - m)) = (fun a => Real.exp a * Real.exp (-m)) := by
      funext a
      rw [sub_eq_add_neg, Real.exp_add]
    have hpos : 0 < ((x :: xs).map Real.exp).sum := by
      apply List.sum_pos
      · intro a ha
        obtain ⟨b, _, rfl⟩ := List.mem_map.mp ha
        exact Real.exp_pos b
      · simp
    rw [hfun, sum_map_exp_mul_const,
      Real.log_mul (ne_of_gt hpos) (ne_of_gt (Real.exp_pos _)), Real.log_exp]
    ring

/-- Taking the log of the weights commutes with the component zip. -/
theorem zip3Map_map_left {α α2 β γ δ : Type} (g : α → α2) (f : α2 → β → γ → δ) :
    ∀ (as : List α) (bs : List β) (cs : List γ),
      zip3Map f (as.map g) bs cs = zip3Map (fun a b c => f (g a) b c) as bs cs := by
  intro as
  induction as with
  | nil => intro bs cs; rfl
  | cons a as ih =>
    intro bs cs
    cases bs with
    | nil => rfl
    | cons b bs =>
      cases cs with
      | nil => rfl
      | cons c cs =>
        simp only [List.map_cons, zip3Map]
        rw [ih]

/-- C4: for nonempty component lists, the GMM log_pdf equals the log-sum-exp
reduction, across the K components, of the stacked per-component vectors
`log (weight) + multivariate normal log-density`: the stable max-shifted
reduction used by the code coincides with the mathematical log-sum-exp on
every column of the stack. -/
theorem gmm_log_pdf_is_logsumexp
    (mvnLogpdf : Batch → List ℝ → List (List ℝ) → List ℝ)
    (means : List (List ℝ)) (covariances : List (List (List ℝ)))
    (weights : List ℝ) (x : Batch)
    (hw : weights ≠ []) (hm : means ≠ []) (hc : covariances ≠ []) :
    gmmLogPdf mvnLogpdf means covariances weights () x =
      (vstackCols (zip3Map (fun w mean cov =>
          (mvnLogpdf x mean cov).map (fun v => Real.log w + v))
        weights means covariances)).map
        (fun col => Real.log ((col.map Real.exp).sum)) := by
  obtain ⟨w, ws, rfl⟩ := List.exists_cons_of_ne_nil hw
  obtain ⟨mn, ms, rfl⟩ := List.exists_cons_of_ne_nil hm
  obtain ⟨cv, cs, rfl⟩ := List.exists_cons_of_ne_nil hc
  show logsumexpAxis0
      (zip3Map _ ((w :: ws).map Real.log) (mn :: ms) (cv :: cs)) = _
  rw [zip3Map_map_left]
  show (vstackCols _).map logsumexpStable = _
  simp only [zip3Map]
  simp only [vstackCols]
  rw [List.map_map, List.map_map]
  apply map_eq_of_eq_on
  intro j _
  simp only [Function.comp_apply]
  exact logsumexpStable_eq_log_sum_exp _ (by simp)

/-- C4 witness: a one-component mixture with weight 1 discharges the
nonemptiness hypotheses. -/
theorem gmm_log_pdf_is_logsumexp_witness :
    gmmLogPdf (fun _ _ _ => [0]) [[0]] [[[1]]] [1] () [[0]] =
      (vstackCols (zip3Map (fun w mean cov =>
          ((fun (_ : Batch) (_ : List ℝ) (_ : List (List ℝ)) => [(0:ℝ)]) [[0]] mean cov).map
            (fun v => Real.log w + v))
        [1] [[0]] [[[1]]])).map
        (fun col => Real.log ((col.map Real.exp).sum)) :=
  gmm_log_pdf_is_logsumexp (fun _ _ _ => [0]) [[0]] [[[1]]] [1] [[0]]
    (by simp) (by simp) (by simp)

/-! ### GMM sampling (src lines 60-68) -/

/-- A numpy ndarray of arbitrary rank: its shape and its row-major flat
data. -/
structure NDArray where
  shape : List ℕ
  data : List ℝ

/-- Threads the rng through the per-component loop of the GMM sample (src
lines 62-65): for each (mean, cov) pair, split the rng, draw a full
candidate batch of num_samples with the second descendant, and continue
the loop with the first. -/
def drawClusters {RNG : Type} (split : RNG → RNG × RNG)
    (mvnDraw : RNG → List ℝ → List (List ℝ) → ℕ → List (List ℝ)) :
    RNG → List (List ℝ × List (List ℝ)) → ℕ → RNG × List (List (List ℝ))
  | rng, [], _ => (rng, [])
  | rng, (mean, cov) :: rest, num_samples =>
    let rng2 := (split rng).1
    let temp_rng := (split rng).2
    let cluster_sample := mvnDraw temp_rng mean cov num_samples
    let r := drawClusters split mvnDraw rng2 rest num_samples
    (r.1, cluster_sample :: r.2)

/-- Model of `np.dstack(cluster_samples)`: K matrices of shape (n, D)
stacked along a new trailing axis into shape (n, D, K); entry (i, j, k)
is entry (i, j) of the k-th matrix. -/
def dstack (clusters : List (List (List ℝ))) : List (List (List ℝ)) :=
  match clusters with
  | [] => []
  | c0 :: rest =>
    (List.range c0.length).map (fun i =>
      (List.range ((c0.getD i []).length)).map (fun j =>
        (c0 :: rest).map (fun c => (c.getD i []).getD j 0)))

/-- Model of `np.take_along_axis(samples, idx, -1)` with an index array of
shape (n, 1, 1) broadcast against an (n, D, K) array: entry (i, j, 0) of
the result is entry (i, j, idx(i)) of the input. -/
def takeAlongLast (samples : List (List (List ℝ))) (idx : List ℕ) :
    List (List (List ℝ)) :=
  (List.range samples.length).map (fun i =>
    (samples.getD i []).map (fun row => [row.getD (idx.getD i 0) 0]))

/-- View of a rank-3 nested list as an ndarray (row-major data). -/
def ofNested3 (x : List (List (List ℝ))) : NDArray :=
  ⟨[x.length, (x.headD []).length, ((x.headD []).headD []).length],
    (x.map List.flatten).flatten⟩

/-- Model of `np.squeeze` with no axis argument: drops every axis of
extent 1; the row-major data is unchanged. -/
def npSqueeze (a : NDArray) : NDArray :=
  ⟨a.shape.filter (fun s => decide (s ≠ 1)), a.data⟩

/-- Translation of `GMM(...).init_fun.sample` (src lines 60-68): draw one
full candidate batch per component, splitting the rng each iteration;
stack the candidates along a new trailing axis; draw one categorical
component index per sample with the final rng and the raw weights; select
per sample the candidate row of its drawn index; squeeze the result.
`mvnDraw` models the external `jax.random.multivariate_normal` with
sample shape (num_samples,); `catDraw` models `jax.random.categorical`
with shape (num_samples, 1, 1), returning one index per sample. -/
def gmmSampleFun {RNG : Type} (split : RNG → RNG × RNG)
    (mvnDraw : RNG → List ℝ → List (List ℝ) → ℕ → List (List ℝ))
    (catDraw : RNG → List ℝ → ℕ → List ℕ)
    (means : List (List ℝ)) (covariances : List (List (List ℝ)))
    (weights : List ℝ) :
    RNG → Unit → ℕ → NDArray :=
  fun rng _params num_samples =>
    let r := drawClusters split mvnDraw rng (means.zip covariances) num_samples
    let samples := dstack r.2
    let idx := catDraw r.1 weights num_samples
    npSqueeze (ofNested3 (takeAlongLast samples idx))

/-- Translation of `GMM(means, covariances, weights).init_fun` (src lines
52-72): empty parameter tuple, the closed-over log_pdf and sample;
input_dim is accepted but never used in the body. -/
noncomputable def gmmInit {RNG : Type} (split : RNG → RNG × RNG)
    (mvnLogpdf : Batch → List ℝ → List (List ℝ) → List ℝ)
    (mvnDraw : RNG → List ℝ → List (List ℝ) → ℕ → List (List ℝ))
    (catDraw : RNG → List ℝ → ℕ → List ℕ)
    (means : List (List ℝ)) (covariances : List (List (List ℝ)))
    (weights : List ℝ) (rng : RNG) (input_dim : ℕ) :
    Unit × (Unit → Batch → List ℝ) × (RNG → Unit → ℕ → NDArray) :=
  ((), gmmLogPdf mvnLogpdf means covariances weights,
    gmmSampleFun split mvnDraw catDraw means covariances weights)

/-- C10: the triplet returned by the GMM init is literally independent of
the input_dim argument: two inits differing only in input_dim return
identical parameters, identical log_pdf and identical sample. -/
theorem gmm_init_ignores_input_dim {RNG : Type} (split : RNG → RNG × RNG)
    (mvnLogpdf : Batch → List ℝ → List (List ℝ) → List ℝ)
    (mvnDraw : RNG → List ℝ → List (List ℝ) → ℕ → List (List ℝ))
    (catDraw : RNG → List ℝ → ℕ → List ℕ)
    (means : List (List ℝ)) (covariances : List (List (List ℝ)))
    (weights : List ℝ) (rng : RNG) (d1 d2 : ℕ) :
    gmmInit split mvnLogpdf mvnDraw catDraw means covariances weights rng d1 =
      gmmInit split mvnLogpdf mvnDraw catDraw means covariances weights rng d2 :=
  rfl

/-- C5 counterexample: a 2-component, 2-dimensional mixture sampled with
num_samples = 1 returns an array of shape [2] (a bare length-D vector),
not the claimed 1-by-2 batch: `np.squeeze` drops the size-1 sample axis
together with the component-selection axis. -/
theorem gmm_sample_single_squeezed_counterexample :
    ((gmmInit (fun r => (2 * r + 1, 2 * r + 2)) (fun _ _ _ => [0])
      (fun _ mean _ n => (List.range n).map (fun _ => mean))
      (fun _ _ n => List.replicate n 0)
      [[0, 0], [1, 1]] [[[1, 0], [0, 1]], [[1, 0], [0, 1]]] [9 / 10, 1 / 10]
      (0 : ℕ) 2).2.2 3 () 1).shape = [2] ∧
    ((gmmInit (fun r => (2 * r + 1, 2 * r + 2)) (fun _ _ _ => [0])
      (fun _ mean _ n => (List.range n).map (fun _ => mean))
      (fun _ _ n => List.replicate n 0)
      [[0, 0], [1, 1]] [[[1, 0], [0, 1]], [[1, 0], [0, 1]]] [9 / 10, 1 / 10]
      (0 : ℕ) 2).2.2 3 () 1).shape ≠ [1, 2] := by
  constructor
  · rfl
  · intro h
    have : ([2] : List ℕ) = [1, 2] := by
      rw [← h]
      rfl
    simp at this

/-- Indexing a map over a range below the bound. -/
theorem getD_map_range {β : Type} (dflt : β) (f : ℕ → β) {n i : ℕ} (h : i < n) :
    ((List.range n).map f).getD i dflt = f i := by
  rw [List.getD_eq_getElem?_getD, List.getElem?_map, List.getElem?_range h]
  rfl

/-- Head of a map over a nonempty range. -/
theorem headD_map_range {β : Type} (dflt : β) (f : ℕ → β) {n : ℕ} (h : 0 < n) :
    ((List.range n).map f).headD dflt = f 0 := by
  obtain ⟨m, rfl⟩ := Nat.exists_eq_succ_of_ne_zero (Nat.pos_iff_ne_zero.mp h)
  rw [List.range_succ_eq_map]
  simp

/-- Shape of the per-sample selection before the squeeze: with a first
cluster of num_samples rows of D features, stacking and selecting yields a
(num_samples, D, 1) array. -/
theorem selected_shape (c0 : List (List ℝ)) (rest : List (List (List ℝ)))
    (idx : List ℕ) (n D : ℕ)
    (hlen0 : c0.length = n) (hrow0 : (c0.getD 0 []).length = D)
    (hn : 0 < n) (hD0 : 0 < D) :
    (ofNested3 (takeAlongLast (dstack (c0 :: rest)) idx)).shape = [n, D, 1] := by
  have hc0pos : 0 < c0.length := by omega
  have hrpos : 0 < (c0.getD 0 []).length := by omega
  have hsl : (dstack (c0 :: rest)).length = c0.length := by
    simp [dstack]
  have hs0 : (dstack (c0 :: rest)).getD 0 [] =
      (List.range ((c0.getD 0 []).length)).map (fun j =>
        (c0 :: rest).map (fun c => (c.getD 0 []).getD j 0)) := by
    show ((List.range c0.length).map _).getD 0 [] = _
    rw [getD_map_range _ _ hc0pos]
  have hx0 : (takeAlongLast (dstack (c0 :: rest)) idx).headD [] =
      ((dstack (c0 :: rest)).getD 0 []).map (fun row => [row.getD (idx.getD 0 0) 0]) := by
    show ((List.range (dstack (c0 :: rest)).length).map _).headD [] = _
    rw [headD_map_range]
    rw [hsl]
    exact hc0pos
  show [(takeAlongLast (dstack (c0 :: rest)) idx).length,
      ((takeAlongLast (dstack (c0 :: rest)) idx).headD []).length,
      (((takeAlongLast (dstack (c0 :: rest)) idx).headD []).headD []).length] = [n, D, 1]
  rw [hx0, hs0]
  simp only [takeAlongLast, List.length_map, List.length_range, hsl, hlen0, List.map_map]
  rw [headD_map_range _ _ hrpos]
  have hrow0n : (c0[0]?.getD []).length = D := by
    rw [← List.getD_eq_getElem?_getD]
    exact hrow0
  simp [hrow0, hrow0n]

/-- Shape of the full GMM sample: the squeeze of (num_samples, D, 1),
with D the common dimension of the means, under the backend contract that
a multivariate draw of sample shape (k,) is a k-by-(mean length) array. -/
theorem gmmSampleFun_shape {RNG : Type} (split : RNG → RNG × RNG)
    (mvnDraw : RNG → List ℝ → List (List ℝ) → ℕ → List (List ℝ))
    (catDraw : RNG → List ℝ → ℕ → List ℕ)
    (means : List (List ℝ)) (covariances : List (List (List ℝ)))
    (weights : List ℝ) (rng : RNG) (n D : ℕ)
    (hmvn : ∀ (r : RNG) (m : List ℝ) (c : List (List ℝ)) (k : ℕ),
      (mvnDraw r m c k).length = k ∧ ∀ row ∈ mvnDraw r m c k, row.length = m.length)
    (hne : means ≠ []) (hcov : covariances ≠ [])
    (hD : ∀ m ∈ means, m.length = D) (hn : 0 < n) (hD0 : 0 < D) :
    (gmmSampleFun split mvnDraw catDraw means covariances weights rng () n).shape =
      List.filter (fun s => decide (s ≠ 1)) [n, D, 1] := by
  obtain ⟨mn, ms, rfl⟩ := List.exists_cons_of_ne_nil hne
  obtain ⟨cv, cs, rfl⟩ := List.exists_cons_of_ne_nil hcov
  have hlen0 : (mvnDraw (split rng).2 mn cv n).length = n :=
    (hmvn (split rng).2 mn cv n).1
  have hrow0 : ((mvnDraw (split rng).2 mn cv n).getD 0 []).length = D := by
    rcases hc0 : mvnDraw (split rng).2 mn cv n with _ | ⟨a, t⟩
    · rw [hc0] at hlen0
      simp at hlen0
      omega
    · have ha : a ∈ mvnDraw (split rng).2 mn cv n := by
        rw [hc0]
        exact List.mem_cons_self _ _
      have h1 := (hmvn (split rng).2 mn cv n).2 a ha
      have h2 := hD mn (List.mem_cons_self _ _)
      rw [List.getD_cons_zero, h1, h2]
  show ((ofNested3 (takeAlongLast
      (dstack ((mvnDraw (split rng).2 mn cv n) ::
        (drawClusters split mvnDraw (split rng).1 (List.zip ms cs) n).2))
      (catDraw (drawClusters split mvnDraw rng
        (List.zip (mn :: ms) (cv :: cs)) n).1 weights n))).shape).filter
      (fun s => decide (s ≠ 1)) =
    List.filter (fun s => decide (s ≠ 1)) [n, D, 1]
  rw [selected_shape _ _ _ n D hlen0 hrow0 hn hD0]

/-- C5 amended: Normal and GenNormal samples are exactly num_samples rows
of input_dim features each, for every num_samples including 1; the GMM
sample is the squeeze of the (num_samples, D, 1) per-sample component
selection, D being the common dimension of the closed-over means, for
every positive num_samples: it is a num_samples-by-D array when
num_samples and D both exceed 1, and at num_samples = 1 the squeeze also
drops the sample axis, leaving a bare length-D vector. -/
theorem sample_shapes_amended {RNG : Type}
    (nlp : ℝ → ℝ → ℝ → ℝ) (gnlp : ℝ → ℝ → ℝ → ℝ → ℝ)
    (draw : RNG → ℕ → ℕ → ℝ) (loc scale power : ℝ)
    (split : RNG → RNG × RNG)
    (mvnDraw : RNG → List ℝ → List (List ℝ) → ℕ → List (List ℝ))
    (catDraw : RNG → List ℝ → ℕ → List ℕ)
    (means : List (List ℝ)) (covariances : List (List (List ℝ)))
    (weights : List ℝ) (rng rng2 : RNG) (input_dim n D : ℕ) (ps : Unit)
    (hmvn : ∀ (r : RNG) (m : List ℝ) (c : List (List ℝ)) (k : ℕ),
      (mvnDraw r m c k).length = k ∧ ∀ row ∈ mvnDraw r m c k, row.length = m.length)
    (hne : means ≠ []) (hcov : covariances ≠ [])
    (hD : ∀ m ∈ means, m.length = D) (hn : 0 < n) (hD0 : 0 < D) :
    (∀ k : ℕ, ((NormalInit nlp draw loc scale rng input_dim).2.2 rng2 ps k).length = k) ∧
    (∀ k : ℕ, ∀ row ∈ (NormalInit nlp draw loc scale rng input_dim).2.2 rng2 ps k,
      row.length = input_dim) ∧
    (∀ k : ℕ,
      ((GenNormalInit gnlp draw loc scale power rng input_dim).2.2 rng2 ps k).length = k) ∧
    (∀ k : ℕ, ∀ row ∈ (GenNormalInit gnlp draw loc scale power rng input_dim).2.2 rng2 ps k,
      row.length = input_dim) ∧
    (gmmSampleFun split mvnDraw catDraw means covariances weights rng2 ps n).shape =
      List.filter (fun s => decide (s ≠ 1)) [n, D, 1] ∧
    (1 < n → 1 < D →
      (gmmSampleFun split mvnDraw catDraw means covariances weights rng2 ps n).shape =
        [n, D]) ∧
    (n = 1 → 1 < D →
      (gmmSampleFun split mvnDraw catDraw means covariances weights rng2 ps n).shape =
        [D]) := by
  obtain ⟨⟩ := ps
  have hgmm := gmmSampleFun_shape split mvnDraw catDraw means covariances weights
    rng2 n D hmvn hne hcov hD hn hD0
  refine ⟨?_, ?_, ?_, ?_, hgmm, ?_, ?_⟩
  · intro k
    simp [NormalInit, tfdSampleModel]
  · intro k row hrow
    simp only [NormalInit, tfdSampleModel, List.mem_map] at hrow
    obtain ⟨i, _, h⟩ := hrow
    rw [← h]
    simp
  · intro k
    simp [GenNormalInit, tfdSampleModel]
  · intro k row hrow
    simp only [GenNormalInit, tfdSampleModel, List.mem_map] at hrow
    obtain ⟨i, _, h⟩ := hrow
    rw [← h]
    simp
  · intro h1 h2
    rw [hgmm]
    simp [List.filter, h1.ne', h2.ne']
  · intro h1 h2
    subst h1
    rw [hgmm]
    simp [List.filter, h2.ne']

/-- C5 amended witness: a concrete backend model, a 2-component
2-dimensional mixture and num_samples = 1, the squeezed edge case. -/
theorem sample_shapes_amended_witness :
    (∀ k : ℕ,
      ((NormalInit (fun _ _ x => x) (fun _ _ _ => 0) 0 1 (0 : ℕ) 2).2.2 1 () k).length = k) ∧
    (∀ k : ℕ,
      ∀ row ∈ (NormalInit (fun _ _ x => x) (fun _ _ _ => (0:ℝ)) 0 1 (0 : ℕ) 2).2.2 1 () k,
        row.length = 2) ∧
    (∀ k : ℕ,
      ((GenNormalInit (fun _ _ _ x => x) (fun _ _ _ => 0) 0 1 2 (0 : ℕ) 2).2.2 1 () k).length = k) ∧
    (∀ k : ℕ,
      ∀ row ∈ (GenNormalInit (fun _ _ _ x => x) (fun _ _ _ => (0:ℝ)) 0 1 2 (0 : ℕ) 2).2.2 1 () k,
        row.length = 2) ∧
    (gmmSampleFun (fun r => (2 * r + 1, 2 * r + 2))
      (fun _ mean _ k => (List.range k).map (fun _ => mean))
      (fun _ _ k => List.replicate k 0)
      [[0, 0], [1, 1]] [[[1, 0], [0, 1]], [[1, 0], [0, 1]]] [9 / 10, 1 / 10]
      1 () 1).shape = List.filter (fun s => decide (s ≠ 1)) [1, 2, 1] ∧
    (1 < 1 → 1 < 2 →
      (gmmSampleFun (fun r => (2 * r + 1, 2 * r + 2))
        (fun _ mean _ k => (List.range k).map (fun _ => mean))
        (fun _ _ k => List.replicate k 0)
        [[0, 0], [1, 1]] [[[1, 0], [0, 1]], [[1, 0], [0, 1]]] [9 / 10, 1 / 10]
        1 () 1).shape = [1, 2]) ∧
    (1 = 1 → 1 < 2 →
      (gmmSampleFun (fun r => (2 * r + 1, 2 * r + 2))
        (fun _ mean _ k => (List.range k).map (fun _ => mean))
        (fun _ _ k => List.replicate k 0)
        [[0, 0], [1, 1]] [[[1, 0], [0, 1]], [[1, 0], [0, 1]]] [9 / 10, 1 / 10]
        1 () 1).shape = [2]) := by
  have h := @sample_shapes_amended ℕ
    (fun _ _ x => x) (fun _ _ _ x => x) (fun _ _ _ => 0) 0 1 2
    (fun r => (2 * r + 1, 2 * r + 2))
    (fun _ mean _ k => (List.range k).map (fun _ => mean))
    (fun _ _ k => List.replicate k 0)
    [[0, 0], [1, 1]] [[[1, 0], [0, 1]], [[1, 0], [0, 1]]] [9 / 10, 1 / 10]
    0 1 2 1 2 ()
    (by
      intro r m c k
      constructor
      · simp
      · intro row hrow
        simp only [List.mem_map] at hrow
        obtain ⟨i, _, hr⟩ := hrow
        rw [← hr])
    (by simp) (by simp)
    (by
      intro m hm
      simp only [List.mem_cons, List.not_mem_nil, or_false] at hm
      rcases hm with rfl | rfl <;> rfl)
    (by omega) (by omega)
  exact h

/-- C6: every sample function of the embedding (Normal, GenNormal, GMM
and Flow) is deterministic in its explicit inputs: two calls with the same
rng token, the same params value and the same num_samples return identical
output.  Every jax draw is a pure function of its rng token, which the
embedding reflects by construction. -/
theorem samples_deterministic {RNG TP PP : Type}
    (nlp : ℝ → ℝ → ℝ → ℝ) (gnlp : ℝ → ℝ → ℝ → ℝ → ℝ)
    (draw : RNG → ℕ → ℕ → ℝ) (loc scale power : ℝ)
    (split : RNG → RNG × RNG)
    (mvnLogpdf : Batch → List ℝ → List (List ℝ) → List ℝ)
    (mvnDraw : RNG → List ℝ → List (List ℝ) → ℕ → List (List ℝ))
    (catDraw : RNG → List ℝ → ℕ → List ℕ)
    (means : List (List ℝ)) (covariances : List (List (List ℝ)))
    (weights : List ℝ)
    (transf : RNG → ℕ → TP × (TP → Batch → Batch × List ℝ) × (TP → Batch → Batch × List ℝ))
    (prior : RNG → ℕ → PP × (PP → Batch → List ℝ) × (RNG → PP → ℕ → Batch))
    (rng : RNG) (input_dim : ℕ)
    (r1 r2 : RNG) (u1 u2 : Unit) (p1 p2 : TP) (n1 n2 : ℕ)
    (hr : r1 = r2) (hp : p1 = p2) (hn : n1 = n2) :
    (NormalInit nlp draw loc scale rng input_dim).2.2 r1 u1 n1 =
      (NormalInit nlp draw loc scale rng input_dim).2.2 r2 u2 n2 ∧
    (GenNormalInit gnlp draw loc scale power rng input_dim).2.2 r1 u1 n1 =
      (GenNormalInit gnlp draw loc scale power rng input_dim).2.2 r2 u2 n2 ∧
    (gmmInit split mvnLogpdf mvnDraw catDraw means covariances weights rng input_dim).2.2 r1 u1 n1 =
      (gmmInit split mvnLogpdf mvnDraw catDraw means covariances weights rng input_dim).2.2 r2 u2 n2 ∧
    (FlowInit split transf prior rng input_dim).2.2 r1 p1 n1 =
      (FlowInit split transf prior rng input_dim).2.2 r2 p2 n2 := by
  subst hr hp hn
  obtain ⟨⟩ := u1
  obtain ⟨⟩ := u2
  exact ⟨rfl, rfl, rfl, rfl⟩

/-- C6 witness: two calls at identical concrete inputs. -/
theorem samples_deterministic_witness :
    (NormalInit (fun _ _ x => x) (fun _ _ _ => 0) 0 1 (0 : ℕ) 2).2.2 1 () 1 =
      (NormalInit (fun _ _ x => x) (fun _ _ _ => 0) 0 1 (0 : ℕ) 2).2.2 1 () 1 ∧
    (GenNormalInit (fun _ _ _ x => x) (fun _ _ _ => 0) 0 1 2 (0 : ℕ) 2).2.2 1 () 1 =
      (GenNormalInit (fun _ _ _ x => x) (fun _ _ _ => 0) 0 1 2 (0 : ℕ) 2).2.2 1 () 1 ∧
    (gmmInit (fun r => (2 * r + 1, 2 * r + 2)) (fun _ _ _ => [0])
      (fun _ mean _ k => (List.range k).map (fun _ => mean))
      (fun _ _ k => List.replicate k 0)
      [[0, 0]] [[[1, 0], [0, 1]]] [1] (0 : ℕ) 2).2.2 1 () 1 =
      (gmmInit (fun r => (2 * r + 1, 2 * r + 2)) (fun _ _ _ => [0])
        (fun _ mean _ k => (List.range k).map (fun _ => mean))
        (fun _ _ k => List.replicate k 0)
        [[0, 0]] [[[1, 0], [0, 1]]] [1] (0 : ℕ) 2).2.2 1 () 1 ∧
    (FlowInit (fun (r : ℕ) => (2 * r + 1, 2 * r + 2))
      (fun _ _ => ((), fun _ x => (x, x.map (fun _ => 0)), fun _ x => (x, x.map (fun _ => 0))))
      (fun _ _ => ((), fun _ x => x.map (fun _ => 0), fun _ _ n => List.replicate n [0]))
      0 2).2.2 1 () 1 =
      (FlowInit (fun (r : ℕ) => (2 * r + 1, 2 * r + 2))
        (fun _ _ => ((), fun _ x => (x, x.map (fun _ => 0)), fun _ x => (x, x.map (fun _ => 0))))
        (fun _ _ => ((), fun _ x => x.map (fun _ => 0), fun _ _ n => List.replicate n [0]))
        0 2).2.2 1 () 1 :=
  @samples_deterministic ℕ Unit Unit
    (fun _ _ x => x) (fun _ _ _ x => x) (fun _ _ _ => 0) 0 1 2
    (fun r => (2 * r + 1, 2 * r + 2)) (fun _ _ _ => [0])
    (fun _ mean _ k => (List.range k).map (fun _ => mean))
    (fun _ _ k => List.replicate k 0)
    [[0, 0]] [[[1, 0], [0, 1]]] [1]
    (fun _ _ => ((), fun _ x => (x, x.map (fun _ => 0)), fun _ x => (x, x.map (fun _ => 0))))
    (fun _ _ => ((), fun _ x => x.map (fun _ => 0), fun _ _ n => List.replicate n [0]))
    0 2 1 1 () () () () 1 1 rfl rfl rfl

/-! ### Mixture component selection (src line 67) -/

/-- Model of the per-draw distribution of the external
`jax.random.categorical(rng, logits, shape)` (external collaborator): its
argument is a vector of unnormalized LOG-probabilities, and index k is
drawn with probability softmax(logits)(k) = exp(logits(k)) / sum(exp
logits).  This is the distribution of the indices returned by the
`catDraw` used in `gmmSampleFun`. -/
noncomputable def categoricalProbModel (logits : List ℝ) (k : ℕ) : ℝ :=
  Real.exp (logits.getD k 0) / (logits.map Real.exp).sum

/-- Probability that one GMM sample selects component k: the code (src
line 67) passes the raw mixture weights directly as the logits of
`random.categorical`. -/
noncomputable def gmmSelectProb (weights : List ℝ) (k : ℕ) : ℝ :=
  categoricalProbModel weights k

/-- Selection probability the claim asserts: proportional to the raw
weight values. -/
noncomputable def weightProportionalProb (weights : List ℝ) (k : ℕ) : ℝ :=
  weights.getD k 0 / weights.sum

/-- C8: with weights [0.9, 0.1] the code selects component 0 with
probability exp(0.9) / (exp(0.9) + exp(0.1)), which is not the 0.9 the
claim requires: the raw weights reach `random.categorical` as logits, so
selection is proportional to exp(weight), inconsistent with the 9:1 ratio
and with the log_pdf of the same file, which weights components by
log(weights). -/
theorem gmm_selection_defies_weights :
    gmmSelectProb [9 / 10, 1 / 10] 0 ≠ weightProportionalProb [9 / 10, 1 / 10] 0 := by
  intro h
  simp only [gmmSelectProb, categoricalProbModel, weightProportionalProb,
    List.getD_cons_zero, List.map_cons, List.map_nil, List.sum_cons,
    List.sum_nil, add_zero] at h
  have hrhs : ((9:ℝ) / 10) / (9 / 10 + 1 / 10) = 9 / 10 := by norm_num
  rw [hrhs] at h
  have hpos : (0:ℝ) < Real.exp (9 / 10) + Real.exp (1 / 10) := by positivity
  rw [div_eq_iff (ne_of_gt hpos)] at h
  have key : Real.exp (8 / 10) < 9 := by
    calc Real.exp ((8:ℝ) / 10) ≤ Real.exp 1 := Real.exp_le_exp.mpr (by norm_num)
    _ < 2.7182818286 := Real.exp_one_lt_d9
    _ < 9 := by norm_num
  have hmul : Real.exp ((9:ℝ) / 10) = Real.exp (8 / 10) * Real.exp (1 / 10) := by
    rw [← Real.exp_add]
    norm_num
  have h9 : Real.exp ((9:ℝ) / 10) < 9 * Real.exp (1 / 10) := by
    rw [hmul]
    exact mul_lt_mul_of_pos_right key (Real.exp_pos _)
  nlinarith [h, h9, Real.exp_pos ((9:ℝ) / 10), Real.exp_pos ((1:ℝ) / 10)]

end JaxFlows
